import Mathlib

/-!
Verification of the record-locking, presence and optimistic-version subsystem
of the RealSync CRM.

The embedding mirrors, definition by definition:
* the SQL concurrency migration: table `record_locks` (with its
  `UNIQUE(entity_type, entity_id)` constraint and `id` primary key), table
  `user_presence`, and the functions `acquire_lock`, `release_lock`,
  `check_lock`, `cleanup_expired_locks`, `get_viewers`, and the
  `increment_version` trigger;
* the TypeScript presence service: `acquireLock` (the RPC wrapper that maps an
  infrastructure error to `{ success: false, error }`) and
  `updateWithVersionCheck` (the conditional update
  `.update(u).eq(id).eq(version).select().single()`);
* the React hooks: the periodic lock-extension tick of `useRecordLock` and the
  `onLockLost` handler of `useEditMode`, plus the filter chains of the
  non-versioned update paths (`useUpdateCompany`, the company store's
  `updateCompany`).

Timestamps are integers (seconds); a SQL interval of m minutes is `60 * m`.
Uuids (row ids, entity ids, principal ids) are naturals.  `auth.uid()` is an
`Option Nat` (`none` = unauthenticated).  The `profiles` lookup
`SELECT full_name FROM profiles WHERE id = uid` is an abstract function
`Nat → String`.
-/

/-- A row of the `record_locks` table. -/
structure LockRow where
  id : Nat
  entity_type : String
  entity_id : Nat
  locked_by : Nat
  locked_by_name : String
  locked_at : Int
  expires_at : Int
deriving Repr, DecidableEq

/-- The `WHERE entity_type = p_entity_type AND entity_id = p_entity_id`
condition used by every lock function. -/
def lockMatches (etype : String) (eid : Nat) (r : LockRow) : Bool :=
  r.entity_type == etype && r.entity_id == eid

/-- `SELECT * INTO ... FROM record_locks WHERE entity_type = _ AND entity_id = _`:
the first matching row, if any. -/
def lookupLock (s : List LockRow) (etype : String) (eid : Nat) : Option LockRow :=
  s.find? (lockMatches etype eid)

/-- The identity key of a lock row; the table's
`UNIQUE(entity_type, entity_id)` constraint says these are pairwise distinct. -/
def identKey (r : LockRow) : String × Nat :=
  (r.entity_type, r.entity_id)

/-- Well-formedness enforced by the schema: the `UNIQUE(entity_type, entity_id)`
constraint (identities pairwise distinct). -/
def wfIdent (s : List LockRow) : Prop :=
  (s.map identKey).Nodup

/-- Well-formedness enforced by the schema: `id UUID PRIMARY KEY`
(row ids pairwise distinct). -/
def wfIds (s : List LockRow) : Prop :=
  (s.map LockRow.id).Nodup

/-- The jsonb value returned by `acquire_lock`, one constructor per
`jsonb_build_object` in the function body. -/
inductive AcquireResult where
  | notAuthenticated
  | extended (lock_id : Nat) (expires_at : Int)
  | tookOver (lock_id : Nat) (expires_at : Int)
  | created (lock_id : Nat) (expires_at : Int)
  | denied (locked_by : Nat) (locked_by_name : String) (locked_at : Int) (expires_at : Int)
deriving Repr, DecidableEq

/-- `(m || ' minutes')::interval` with timestamps in seconds. -/
def minutes (m : Int) : Int := 60 * m

/-- SQL function `acquire_lock(p_entity_type, p_entity_id, p_lock_duration_minutes)`.
`auth` is `auth.uid()`, `profileName` the `profiles.full_name` lookup, `now`
the value of `NOW()`, `freshId` the `uuid_generate_v4()` default for an
inserted row.  Returns the jsonb result together with the table state after
the call. -/
def acquire_lock (auth : Option Nat) (profileName : Nat → String) (s : List LockRow)
    (p_entity_type : String) (p_entity_id : Nat) (p_lock_duration_minutes : Int)
    (now : Int) (freshId : Nat) : AcquireResult × List LockRow :=
  match auth with
  | none => (.notAuthenticated, s)
  | some uid =>
    let uname := profileName uid
    match lookupLock s p_entity_type p_entity_id with
    | some r =>
      if r.locked_by == uid then
        -- It's our lock - extend it
        let e := now + minutes p_lock_duration_minutes
        (.extended r.id e,
         s.map fun q =>
           if q.id == r.id then { q with expires_at := e, locked_at := now } else q)
      else if r.expires_at < now then
        -- Lock expired - take it over
        let e := now + minutes p_lock_duration_minutes
        (.tookOver r.id e,
         s.map fun q =>
           if q.id == r.id then
             { q with locked_by := uid, locked_by_name := uname,
                      locked_at := now, expires_at := e }
           else q)
      else
        -- Lock is held by someone else and not expired
        (.denied r.locked_by r.locked_by_name r.locked_at r.expires_at, s)
    | none =>
      -- No lock exists - create one (locked_at defaults to NOW())
      let e := now + minutes p_lock_duration_minutes
      (.created freshId e,
       s ++ [⟨freshId, p_entity_type, p_entity_id, uid, uname, now, e⟩])

/-- The `DELETE ... AND locked_by = v_user_id` condition of `release_lock`. -/
def ownedMatch (etype : String) (eid : Nat) (uid : Nat) (r : LockRow) : Bool :=
  lockMatches etype eid r && r.locked_by == uid

/-- SQL function `release_lock(p_entity_type, p_entity_id)`: deletes the
caller's lock rows for the identity; `FOUND` is true iff at least one row was
deleted. -/
def release_lock (auth : Option Nat) (s : List LockRow)
    (p_entity_type : String) (p_entity_id : Nat) : Bool × List LockRow :=
  match auth with
  | none => (false, s)
  | some uid =>
    (s.any (ownedMatch p_entity_type p_entity_id uid),
     s.filter fun r => !(ownedMatch p_entity_type p_entity_id uid r))

/-- The jsonb value returned by `check_lock`. -/
inductive CheckResult where
  | notLocked
  | locked (is_mine : Bool) (locked_by : Nat) (locked_by_name : String)
      (locked_at : Int) (expires_at : Int)
deriving Repr, DecidableEq

/-- SQL function `check_lock(p_entity_type, p_entity_id)`: only non-expired
rows (`expires_at > NOW()`) are visible; `is_mine` compares the holder with
`auth.uid()`. -/
def check_lock (auth : Option Nat) (s : List LockRow)
    (p_entity_type : String) (p_entity_id : Nat) (now : Int) : CheckResult :=
  match s.find? (fun r => lockMatches p_entity_type p_entity_id r && decide (now < r.expires_at)) with
  | none => .notLocked
  | some r => .locked (auth == some r.locked_by) r.locked_by r.locked_by_name r.locked_at r.expires_at

/-- Whether a `check_lock` result reports `is_mine = true`. -/
def CheckResult.isMine : CheckResult → Bool
  | .notLocked => false
  | .locked m _ _ _ _ => m

/-- SQL function `cleanup_expired_locks()`: deletes rows with
`expires_at < NOW()` and returns the deleted-row count. -/
def cleanup_expired_locks (s : List LockRow) (now : Int) : Nat × List LockRow :=
  ((s.filter fun r => decide (r.expires_at < now)).length,
   s.filter fun r => !decide (r.expires_at < now))

/-- A row of the `user_presence` table (`entity_type`/`entity_id` are null on
list pages). -/
structure PresenceRow where
  user_id : Nat
  user_name : String
  current_page : String
  entity_type : Option String
  entity_id : Option Nat
  status : String
  last_seen : Int
deriving Repr, DecidableEq

/-- One element of the table returned by `get_viewers`. -/
structure Viewer where
  user_id : Nat
  user_name : String
  status : String
  last_seen : Int
deriving Repr, DecidableEq

/-- The `WHERE` clause of `get_viewers`: entity match, freshness
(`last_seen > NOW() - INTERVAL '2 minutes'`), and `user_id != auth.uid()`. -/
def viewerMatch (auth : Nat) (etype : String) (eid : Nat) (now : Int)
    (r : PresenceRow) : Bool :=
  r.entity_type == some etype && r.entity_id == some eid &&
    decide (now - 120 < r.last_seen) && !(r.user_id == auth)

/-- SQL function `get_viewers(p_entity_type, p_entity_id)`. -/
def get_viewers (auth : Nat) (s : List PresenceRow) (p_entity_type : String)
    (p_entity_id : Nat) (now : Int) : List Viewer :=
  (s.filter (viewerMatch auth p_entity_type p_entity_id now)).map fun r =>
    ⟨r.user_id, r.user_name, r.status, r.last_seen⟩

/-- A row of a versioned business-entity table (`companies`, `branches`, ...):
the `version INTEGER` column (nullable at the SQL level, hence `COALESCE` in
the trigger) plus the entity's other columns collapsed into `data`. -/
structure EntityRow where
  id : Nat
  version : Option Int
  data : String
deriving Repr, DecidableEq

/-- Trigger function `increment_version`:
`NEW.version := COALESCE(OLD.version, 0) + 1`. -/
def increment_version (oldVersion : Option Int) : Int :=
  oldVersion.getD 0 + 1

/-- The `WHERE id = ? AND version = ?` condition of `updateWithVersionCheck`. -/
def versionedMatch (entityId : Nat) (expectedVersion : Int) (r : EntityRow) : Bool :=
  r.id == entityId && r.version == some expectedVersion

/-- Effect of one `UPDATE` on a matched row: the payload `upd` is applied and
the `BEFORE UPDATE` trigger overwrites `version` via `increment_version`. -/
def applyVersionedUpdate (upd : String → String) (r : EntityRow) : EntityRow :=
  { r with data := upd r.data, version := some (increment_version r.version) }

/-- TypeScript `updateWithVersionCheck(table, entityId, updates, expectedVersion)`:
`.update(updates).eq('id', entityId).eq('version', expectedVersion).select().single()`.
Zero affected rows surface as PostgREST error `PGRST116`, which the function
rethrows as the conflict message; exactly one affected row is returned. -/
def updateWithVersionCheck (db : List EntityRow) (entityId : Nat)
    (upd : String → String) (expectedVersion : Int) :
    Except String EntityRow × List EntityRow :=
  let affected := db.filter (versionedMatch entityId expectedVersion)
  let db2 := db.map fun r =>
    if versionedMatch entityId expectedVersion r then applyVersionedUpdate upd r else r
  match affected with
  | [r] => (.ok (applyVersionedUpdate upd r), db2)
  | _ =>
    (.error "This record has been modified by another user. Please refresh and try again.",
     db2)

/-- First row of a business table with a given id. -/
def findEntity (db : List EntityRow) (entityId : Nat) : Option EntityRow :=
  db.find? fun r => r.id == entityId

/-- A value appearing in a PostgREST `.eq` filter. -/
inductive FilterVal where
  | uuid (u : Nat)
  | int (n : Int)
deriving Repr, DecidableEq

/-- The filter chain of one PostgREST update statement: the table it targets
and the `.eq(column, value)` conditions attached to the `UPDATE`. -/
structure UpdateStatement where
  table : String
  filters : List (String × FilterVal)
deriving Repr, DecidableEq

/-- Filter chain of `updateWithVersionCheck`:
`.update(u).eq('id', entityId).eq('version', expectedVersion)`. -/
def updateWithVersionCheckStatement (table : String) (entityId : Nat)
    (expectedVersion : Int) : UpdateStatement :=
  ⟨table, [("id", .uuid entityId), ("version", .int expectedVersion)]⟩

/-- Filter chain of the `useUpdateCompany` mutation:
`.from('companies').update(data).eq('id', id)` - no version condition. -/
def useUpdateCompanyStatement (companyId : Nat) : UpdateStatement :=
  ⟨"companies", [("id", .uuid companyId)]⟩

/-- Filter chain of the company store's `updateCompany` action:
`.from('companies').update(updates).eq('id', id)` - no version condition. -/
def companyStoreUpdateStatement (companyId : Nat) : UpdateStatement :=
  ⟨"companies", [("id", .uuid companyId)]⟩

/-- Whether an update statement carries a `version` precondition. -/
def hasVersionPrecondition (q : UpdateStatement) : Bool :=
  q.filters.any fun f => f.1 == "version"

/-- Whether one `.eq` filter holds of a row of a versioned table. -/
def filterHolds (r : EntityRow) (f : String × FilterVal) : Bool :=
  match f with
  | ("id", .uuid u) => r.id == u
  | ("version", .int n) => r.version == some n
  | _ => false

/-- The rows an update statement's `WHERE` clause selects. -/
def rowsAffected (q : UpdateStatement) (db : List EntityRow) : List EntityRow :=
  db.filter fun r => q.filters.all (filterHolds r)

/-- The `LockResult` object of the TypeScript presence service. -/
structure LockResultTS where
  success : Bool
  lock_id : Option Nat
  expires_at : Option Int
  extended : Bool
  took_over : Bool
  created : Bool
  error : Option String
  locked_by : Option Nat
  locked_by_name : Option String
  locked_at : Option Int
deriving Repr, DecidableEq

/-- Translation of the `acquire_lock` jsonb into the client's `LockResult`
shape (field by field from the five `jsonb_build_object` calls). -/
def AcquireResult.toTS : AcquireResult → LockResultTS
  | .notAuthenticated =>
    ⟨false, none, none, false, false, false, some "Not authenticated",
     none, none, none⟩
  | .extended lid e =>
    ⟨true, some lid, some e, true, false, false, none, none, none, none⟩
  | .tookOver lid e =>
    ⟨true, some lid, some e, false, true, false, none, none, none, none⟩
  | .created lid e =>
    ⟨true, some lid, some e, false, false, true, none, none, none, none⟩
  | .denied lb lbn la e =>
    ⟨false, none, some e, false, false, false, some "Record is being edited",
     some lb, some lbn, some la⟩

/-- TypeScript `acquireLock`: the RPC wrapper.  An infrastructure error from
the round-trip is mapped to `{ success: false, error: error.message }`; a
successful round-trip returns the rpc's data unchanged. -/
def acquireLockClient (rpc : Except String LockResultTS) : LockResultTS :=
  match rpc with
  | .error msg =>
    ⟨false, none, none, false, false, false, some msg, none, none, none⟩
  | .ok r => r

/-- The edit-session state kept by `useEditMode` (`isEditing`, `editData`). -/
structure EditSession where
  isEditing : Bool
  editData : Option String
deriving Repr, DecidableEq

/-- The `onLockLost` callback `useEditMode` passes to `useRecordLock`: when
editing, leave edit mode, discard `editData` and alert the user (the returned
flag records that the alert fired). -/
def onLockLostEditMode (st : EditSession) : EditSession × Bool :=
  if st.isEditing then (⟨false, none⟩, true) else (st, false)

/-- One firing of the periodic lock-extension interval in `useRecordLock`
(`setInterval` body): when the client believes it holds the lock it re-calls
`acquireLock`; if `result.success` is false - for any reason - it marks the
lock as lost and invokes `onLockLost`.  Returns the edit session after the
tick and whether the lock-lost teardown was triggered. -/
def extendTick (isLockedByMe : Bool) (result : LockResultTS) (st : EditSession) :
    EditSession × Bool :=
  if isLockedByMe && !result.success then onLockLostEditMode st else (st, false)

/-! ### Helper lemmas -/

/-- `find?` commutes with a map that does not change the predicate's value. -/
theorem find?_map_pred_inv {α : Type} (g : α → α) (p : α → Bool)
    (h : ∀ a, p (g a) = p a) :
    ∀ l : List α, (l.map g).find? p = (l.find? p).map g := by
  intro l
  induction l with
  | nil => rfl
  | cons a t ih =>
    by_cases hpa : p a = true
    · rw [List.map_cons, List.find?_cons_of_pos _ (by rw [h a]; exact hpa),
        List.find?_cons_of_pos _ hpa, Option.map_some']
    · rw [List.map_cons,
        List.find?_cons_of_neg _ (by rw [h a]; exact hpa),
        List.find?_cons_of_neg _ hpa, ih]

/-- A map that does not change a key function leaves the list of keys
unchanged. -/
theorem map_key_map_inv {α β : Type} (g : α → α) (f : α → β)
    (h : ∀ a, f (g a) = f a) (l : List α) :
    (l.map g).map f = l.map f := by
  induction l with
  | nil => rfl
  | cons a t ih => simp [h, ih]

/-- A filtered list with exactly one satisfying element. -/
theorem filter_eq_singleton {α : Type} {l : List α} {p : α → Bool} {r : α}
    (hl : l.Nodup) (hr : r ∈ l) (hpr : p r = true)
    (huniq : ∀ q ∈ l, p q = true → q = r) :
    l.filter p = [r] := by
  induction l with
  | nil => cases hr
  | cons a t ih =>
    rcases List.mem_cons.mp hr with h | h
    · subst h
      have ht : t.filter p = [] := by
        rw [List.filter_eq_nil_iff]
        intro q hq hpq
        have hqr : q = r := huniq q (List.mem_cons_of_mem _ hq) hpq
        exact (List.nodup_cons.mp hl).1 (hqr ▸ hq)
      simp [List.filter_cons, hpr, ht]
    · have hpa : p a = false := by
        cases hh : p a with
        | false => rfl
        | true =>
          exact absurd ((huniq a (List.mem_cons_self a t) hh) ▸ h)
            (List.nodup_cons.mp hl).1
      simpa [List.filter_cons, hpa] using
        ih (List.nodup_cons.mp hl).2 h
          (fun q hq hpq => huniq q (List.mem_cons_of_mem _ hq) hpq)

/-! ### Claim theorems -/

/-- Claim C10: an acquire call by the recorded holder of the existing lock row
for the identity returns `extended` even when the row's `expires_at` is
already in the past - the same-holder branch of `acquire_lock` never inspects
expiry, so an expired-but-unswept lock is silently renewed by its former
holder rather than reported as `created` or `took_over`. -/
theorem acquire_by_holder_extends_even_when_expired
    (pn : Nat → String) (s : List LockRow) (etype : String) (eid : Nat)
    (dur now : Int) (fid : Nat) (uid : Nat) (r : LockRow)
    (hfind : lookupLock s etype eid = some r)
    (hmine : r.locked_by = uid)
    (hexpired : r.expires_at < now) :
    (acquire_lock (some uid) pn s etype eid dur now fid).1 =
      .extended r.id (now + minutes dur) := by
  simp [acquire_lock, hfind, hmine]

/-- Witness for C10: holder 3 re-acquires its lock 50 seconds after expiry and
still gets `extended`. -/
theorem acquire_by_holder_extends_even_when_expired_witness :
    (acquire_lock (some 3) (fun _ => "Ann")
      [⟨1, "job", 5, 3, "Ann", 0, 50⟩] "job" 5 15 100 9).1 =
      .extended 1 (100 + minutes 15) :=
  acquire_by_holder_extends_even_when_expired (fun _ => "Ann")
    [⟨1, "job", 5, 3, "Ann", 0, 50⟩] "job" 5 15 100 9 3
    ⟨1, "job", 5, 3, "Ann", 0, 50⟩ (by decide) rfl (by decide)

/-- Claim C2 counterexample: a lock held by principal 10 with
`expires_at = 100`; principal 20 calls acquire at the exact instant
`now = 100`.  The claim requires `tookOver` at `expires_at ≤ now`, but the
code's takeover branch tests `expires_at < NOW()`, so the call returns
`denied`. -/
theorem acquire_at_expiry_instant_is_denied :
    (acquire_lock (some 20) (fun _ => "Bob")
      [⟨1, "job", 5, 10, "Alice", 0, 100⟩] "job" 5 15 100 9).1 =
      .denied 10 "Alice" 0 100 := by decide

/-- Claim C2 (amended): for a lock held by a principal other than the caller,
acquire returns `denied` for all instants with `now ≤ expires_at` (including
the exact instant `expires_at = now`) and `tookOver` for all instants with
`expires_at < now`; these two regimes are exhaustive, with no third outcome in
between. -/
theorem acquire_other_holder_denied_until_strictly_expired
    (pn : Nat → String) (s : List LockRow) (etype : String) (eid : Nat)
    (dur now : Int) (fid : Nat) (uidB : Nat) (r : LockRow)
    (hfind : lookupLock s etype eid = some r)
    (hother : r.locked_by ≠ uidB) :
    (now ≤ r.expires_at →
      (acquire_lock (some uidB) pn s etype eid dur now fid).1 =
        .denied r.locked_by r.locked_by_name r.locked_at r.expires_at) ∧
    (r.expires_at < now →
      (acquire_lock (some uidB) pn s etype eid dur now fid).1 =
        .tookOver r.id (now + minutes dur)) := by
  have hb : (r.locked_by == uidB) = false := beq_eq_false_iff_ne.mpr hother
  constructor
  · intro hle
    have hnlt : ¬(r.expires_at < now) := not_lt.mpr hle
    simp [acquire_lock, hfind, hb, hnlt]
  · intro hlt
    simp [acquire_lock, hfind, hb, hlt]

/-- Witness for the amended C2: both regimes at concrete inputs - denied at
the boundary instant, taken over one second later. -/
theorem acquire_other_holder_denied_until_strictly_expired_witness :
    ((acquire_lock (some 20) (fun _ => "Bob")
        [⟨1, "job", 5, 10, "Alice", 0, 100⟩] "job" 5 15 100 9).1 =
      .denied 10 "Alice" 0 100) ∧
    ((acquire_lock (some 20) (fun _ => "Bob")
        [⟨1, "job", 5, 10, "Alice", 0, 100⟩] "job" 5 15 101 9).1 =
      .tookOver 1 (101 + minutes 15)) :=
  ⟨(acquire_other_holder_denied_until_strictly_expired (fun _ => "Bob")
      [⟨1, "job", 5, 10, "Alice", 0, 100⟩] "job" 5 15 100 9 20
      ⟨1, "job", 5, 10, "Alice", 0, 100⟩ (by decide) (by decide)).1 (by decide),
   (acquire_other_holder_denied_until_strictly_expired (fun _ => "Bob")
      [⟨1, "job", 5, 10, "Alice", 0, 100⟩] "job" 5 15 101 9 20
      ⟨1, "job", 5, 10, "Alice", 0, 100⟩ (by decide) (by decide)).2 (by decide)⟩

/-- Claim C6 counterexample: the `useUpdateCompany` update statement carries
no version precondition, and with the stored company row at version 5 it still
affects the row even though the caller's last-known version was 3 - the
statement does not mention any version at all. -/
theorem useUpdateCompany_lacks_version_precondition :
    hasVersionPrecondition (useUpdateCompanyStatement 7) = false ∧
    rowsAffected (useUpdateCompanyStatement 7) [⟨7, some 5, "server copy"⟩] =
      [⟨7, some 5, "server copy"⟩] := by decide

/-- Claim C6 (amended): the `updateWithVersionCheck` helper does submit the
caller's last-known version as a precondition of its single conditional
update statement - every row its `WHERE` clause selects stores exactly the
expected version - but not every business-entity update path uses it: the
`useUpdateCompany` mutation and the company store's `updateCompany` action
filter on id alone, with no version precondition, so a company update issued
through them can succeed against a stored version different from the one the
caller read. -/
theorem version_precondition_not_on_every_path
    (t : String) (entityId : Nat) (v : Int) (cid : Nat) :
    hasVersionPrecondition (updateWithVersionCheckStatement t entityId v) = true ∧
    (∀ db : List EntityRow, ∀ r ∈ rowsAffected (updateWithVersionCheckStatement t entityId v) db,
      r.id = entityId ∧ r.version = some v) ∧
    hasVersionPrecondition (useUpdateCompanyStatement cid) = false ∧
    hasVersionPrecondition (companyStoreUpdateStatement cid) = false := by
  refine ⟨rfl, ?_, rfl, rfl⟩
  intro db r hr
  have hmem := List.mem_filter.mp hr
  have hall := hmem.2
  simp only [updateWithVersionCheckStatement, List.all_cons, List.all_nil,
    Bool.and_eq_true, filterHolds] at hall
  exact ⟨by simpa using hall.1, by simpa using hall.2.1⟩

/-- Witness for the amended C6: at a concrete store, the only row the
versioned statement affects carries the expected version, and the
non-versioned company paths carry no version filter. -/
theorem version_precondition_not_on_every_path_witness :
    hasVersionPrecondition (updateWithVersionCheckStatement "companies" 7 3) = true ∧
    ((⟨7, some 3, "mine"⟩ : EntityRow) ∈
        rowsAffected (updateWithVersionCheckStatement "companies" 7 3)
          [⟨7, some 3, "mine"⟩] →
      (7 : Nat) = 7 ∧ (some 3 : Option Int) = some 3) ∧
    hasVersionPrecondition (useUpdateCompanyStatement 7) = false :=
  ⟨(version_precondition_not_on_every_path "companies" 7 3 7).1,
   fun hmem =>
     (version_precondition_not_on_every_path "companies" 7 3 7).2.1
       [⟨7, some 3, "mine"⟩] ⟨7, some 3, "mine"⟩ hmem,
   (version_precondition_not_on_every_path "companies" 7 3 7).2.2.1⟩

/-- Claim C9 counterexample: while editing with the lock held, a single
periodic extension attempt that fails with a transient infrastructure error
(the RPC wrapper maps it to `success: false`) triggers the lock-lost
teardown: the session leaves `Editing`, the draft is discarded and the user
is alerted - the code does not distinguish an infrastructure failure from an
actual denial. -/
theorem transient_extension_failure_tears_down_session :
    extendTick true
      (acquireLockClient (.error "TypeError: Failed to fetch"))
      ⟨true, some "draft"⟩ =
      (⟨false, none⟩, true) := by decide

/-- Claim C9 (amended): in the client coordination layer, any unsuccessful
periodic lock-extension result forces the edit-session teardown - an actual
denial by another principal and a single transient infrastructure failure of
the call alike - while a successful extension never does; the lock-lost
transition is keyed on `result.success` alone. -/
theorem extension_tick_teardown_iff_unsuccessful
    (st : EditSession) (hst : st.isEditing = true) :
    (∀ msg : String,
      extendTick true (acquireLockClient (.error msg)) st = (⟨false, none⟩, true)) ∧
    (∀ res : LockResultTS, res.success = false →
      extendTick true res st = (⟨false, none⟩, true)) ∧
    (∀ res : LockResultTS, res.success = true →
      extendTick true res st = (st, false)) ∧
    (∀ lb : Nat, ∀ lbn : String, ∀ la e : Int,
      extendTick true (AcquireResult.toTS (.denied lb lbn la e)) st =
        (⟨false, none⟩, true)) := by
  refine ⟨?_, ?_, ?_, ?_⟩
  · intro msg
    simp [extendTick, acquireLockClient, onLockLostEditMode, hst]
  · intro res hres
    simp [extendTick, hres, onLockLostEditMode, hst]
  · intro res hres
    simp [extendTick, hres]
  · intro lb lbn la e
    simp [extendTick, AcquireResult.toTS, onLockLostEditMode, hst]

/-- Witness for the amended C9: concrete editing session, concrete transient
failure and concrete denial both tear it down; a successful extension leaves
it editing. -/
theorem extension_tick_teardown_iff_unsuccessful_witness :
    (extendTick true (acquireLockClient (.error "network timeout"))
        ⟨true, some "draft"⟩ = (⟨false, none⟩, true)) ∧
    (extendTick true (AcquireResult.toTS (.denied 10 "Alice" 0 100))
        ⟨true, some "draft"⟩ = (⟨false, none⟩, true)) ∧
    (extendTick true (AcquireResult.toTS (.extended 1 900))
        ⟨true, some "draft"⟩ = (⟨true, some "draft"⟩, false)) :=
  ⟨(extension_tick_teardown_iff_unsuccessful ⟨true, some "draft"⟩ rfl).1
      "network timeout",
   (extension_tick_teardown_iff_unsuccessful ⟨true, some "draft"⟩ rfl).2.2.2
      10 "Alice" 0 100,
   (extension_tick_teardown_iff_unsuccessful ⟨true, some "draft"⟩ rfl).2.2.1
      (AcquireResult.toTS (.extended 1 900)) rfl⟩

/-- `lookupLock` after an update that touches no entity fields. -/
theorem lookupLock_map_update (g : LockRow → LockRow)
    (hg : ∀ q, (g q).entity_type = q.entity_type ∧ (g q).entity_id = q.entity_id)
    (s : List LockRow) (etype : String) (eid : Nat) :
    lookupLock (s.map g) etype eid = (lookupLock s etype eid).map g := by
  apply find?_map_pred_inv
  intro a
  simp [lockMatches, (hg a).1, (hg a).2]

/-- Claim C1: the four branches of `acquire_lock` for an authenticated caller
with positive duration.  No row: a row for the caller is created and the
result is `created` with `expires_at = now + duration`.  Row held by the
caller: it is updated in place (`locked_at = now`,
`expires_at = now + duration`), result `extended`.  Row held by another
principal and expired: the row is reassigned to the caller, result
`took_over`.  Row held by another principal and not expired: the store is
unchanged and the result is `denied` carrying the holder's id, display name,
`locked_at` and `expires_at`. -/
theorem acquire_branch_semantics
    (pn : Nat → String) (s : List LockRow) (etype : String) (eid : Nat)
    (dur now : Int) (fid uid : Nat) (hdur : 0 < dur) :
    (lookupLock s etype eid = none →
      acquire_lock (some uid) pn s etype eid dur now fid =
        (.created fid (now + minutes dur),
         s ++ [⟨fid, etype, eid, uid, pn uid, now, now + minutes dur⟩])) ∧
    (∀ r, lookupLock s etype eid = some r → r.locked_by = uid →
      (acquire_lock (some uid) pn s etype eid dur now fid).1 =
        .extended r.id (now + minutes dur) ∧
      lookupLock (acquire_lock (some uid) pn s etype eid dur now fid).2 etype eid =
        some { r with locked_at := now, expires_at := now + minutes dur } ∧
      ∀ q ∈ s, q.id ≠ r.id →
        q ∈ (acquire_lock (some uid) pn s etype eid dur now fid).2) ∧
    (∀ r, lookupLock s etype eid = some r → r.locked_by ≠ uid →
        r.expires_at < now →
      (acquire_lock (some uid) pn s etype eid dur now fid).1 =
        .tookOver r.id (now + minutes dur) ∧
      lookupLock (acquire_lock (some uid) pn s etype eid dur now fid).2 etype eid =
        some { r with locked_by := uid, locked_by_name := pn uid,
                      locked_at := now, expires_at := now + minutes dur } ∧
      ∀ q ∈ s, q.id ≠ r.id →
        q ∈ (acquire_lock (some uid) pn s etype eid dur now fid).2) ∧
    (∀ r, lookupLock s etype eid = some r → r.locked_by ≠ uid →
        now ≤ r.expires_at →
      acquire_lock (some uid) pn s etype eid dur now fid =
        (.denied r.locked_by r.locked_by_name r.locked_at r.expires_at, s)) := by
  refine ⟨?_, ?_, ?_, ?_⟩
  · intro hnone
    simp [acquire_lock, hnone]
  · intro r hr hmine
    have hb : (r.locked_by == uid) = true := beq_iff_eq.mpr hmine
    refine ⟨by simp [acquire_lock, hr, hb], ?_, ?_⟩
    · simp only [acquire_lock, hr, hb, if_true]
      rw [lookupLock_map_update]
      · rw [hr]
        simp
      · intro q
        by_cases h : (q.id == r.id) = true <;> simp [h]
    · intro q hq hne
      simp only [acquire_lock, hr, hb, if_true]
      refine List.mem_map.mpr ⟨q, hq, ?_⟩
      simp [beq_eq_false_iff_ne.mpr hne]
  · intro r hr hother hexp
    have hb : (r.locked_by == uid) = false := beq_eq_false_iff_ne.mpr hother
    refine ⟨by simp [acquire_lock, hr, hb, hexp], ?_, ?_⟩
    · simp only [acquire_lock, hr, hb, Bool.false_eq_true, if_false, hexp,
        if_true]
      rw [lookupLock_map_update]
      · rw [hr]
        simp
      · intro q
        by_cases h : (q.id == r.id) = true <;> simp [h]
    · intro q hq hne
      simp only [acquire_lock, hr, hb, Bool.false_eq_true, if_false, hexp,
        if_true]
      refine List.mem_map.mpr ⟨q, hq, ?_⟩
      simp [beq_eq_false_iff_ne.mpr hne]
  · intro r hr hother hlive
    have hb : (r.locked_by == uid) = false := beq_eq_false_iff_ne.mpr hother
    have hnlt : ¬(r.expires_at < now) := not_lt.mpr hlive
    simp [acquire_lock, hr, hb, hnlt]

/-- Witness for C1: on an empty store, acquire by principal 3 creates the lock
row; on the resulting store, a second acquire by 3 extends it in place. -/
theorem acquire_branch_semantics_witness :
    (acquire_lock (some 3) (fun _ => "Ann") [] "job" 5 15 100 9 =
      (.created 9 (100 + minutes 15),
       [⟨9, "job", 5, 3, "Ann", 100, 100 + minutes 15⟩])) ∧
    ((acquire_lock (some 3) (fun _ => "Ann")
        [⟨9, "job", 5, 3, "Ann", 100, 1000⟩] "job" 5 15 200 11).1 =
      .extended 9 (200 + minutes 15)) :=
  ⟨(acquire_branch_semantics (fun _ => "Ann") [] "job" 5 15 100 9 3
      (by decide)).1 (by decide),
   ((acquire_branch_semantics (fun _ => "Ann")
      [⟨9, "job", 5, 3, "Ann", 100, 1000⟩] "job" 5 15 200 11 3
      (by decide)).2.1 ⟨9, "job", 5, 3, "Ann", 100, 1000⟩ (by decide) rfl).1⟩

/-- Claim C4: `release_lock` deletes the lock row iff it exists and its holder
is the caller, and returns true iff a row was deleted; release by a
non-holder, or with no matching row, leaves the store unchanged and returns
false rather than erroring, and a second release by the former holder also
returns false. -/
theorem release_owner_scoped_idempotent
    (s : List LockRow) (uid : Nat) (etype : String) (eid : Nat) :
    ((release_lock (some uid) s etype eid).1 = true ↔
      ∃ r ∈ s, ownedMatch etype eid uid r = true) ∧
    (∀ r ∈ s, ownedMatch etype eid uid r = true →
      r ∉ (release_lock (some uid) s etype eid).2) ∧
    (∀ r ∈ s, ownedMatch etype eid uid r = false →
      r ∈ (release_lock (some uid) s etype eid).2) ∧
    ((∀ r ∈ s, ownedMatch etype eid uid r = false) →
      release_lock (some uid) s etype eid = (false, s)) ∧
    ((release_lock (some uid)
        (release_lock (some uid) s etype eid).2 etype eid).1 = false) := by
  refine ⟨?_, ?_, ?_, ?_, ?_⟩
  · simp [release_lock, List.any_eq_true]
  · intro r _ hro hmem
    have := (List.mem_filter.mp hmem).2
    simp [hro] at this
  · intro r hrs hro
    exact List.mem_filter.mpr ⟨hrs, by simp [hro]⟩
  · intro hnone
    simp only [release_lock, Prod.mk.injEq]
    constructor
    · simp only [List.any_eq_false]
      intro r hr
      simp [hnone r hr]
    · rw [List.filter_eq_self]
      intro r hr
      simp [hnone r hr]
  · simp only [release_lock, List.any_eq_false]
    intro r hr
    have := (List.mem_filter.mp hr).2
    simp only [Bool.not_eq_true'] at this
    simp [this]

/-- Witness for C4 at a concrete store: release by a non-holder returns false
and keeps the row; release by the holder removes it and returns true; a second
release by the former holder returns false. -/
theorem release_owner_scoped_idempotent_witness :
    ((release_lock (some 4) [⟨1, "job", 5, 3, "Ann", 0, 900⟩] "job" 5) =
      (false, [⟨1, "job", 5, 3, "Ann", 0, 900⟩])) ∧
    ((release_lock (some 3) [⟨1, "job", 5, 3, "Ann", 0, 900⟩] "job" 5).1 = true) ∧
    ((release_lock (some 3)
        (release_lock (some 3) [⟨1, "job", 5, 3, "Ann", 0, 900⟩] "job" 5).2
        "job" 5).1 = false) :=
  ⟨(release_owner_scoped_idempotent [⟨1, "job", 5, 3, "Ann", 0, 900⟩] 4
      "job" 5).2.2.2.1 (by decide),
   (release_owner_scoped_idempotent [⟨1, "job", 5, 3, "Ann", 0, 900⟩] 3
      "job" 5).1.mpr ⟨⟨1, "job", 5, 3, "Ann", 0, 900⟩, by decide, by decide⟩,
   (release_owner_scoped_idempotent [⟨1, "job", 5, 3, "Ann", 0, 900⟩] 3
      "job" 5).2.2.2.2⟩

/-- A pointwise-identity map leaves a list unchanged. -/
theorem map_id_of_mem {α : Type} {l : List α} {f : α → α}
    (h : ∀ a ∈ l, f a = a) : l.map f = l := by
  induction l with
  | nil => rfl
  | cons a t ih =>
    simp only [List.map_cons, h a (List.mem_cons_self a t)]
    rw [ih fun b hb => h b (List.mem_cons_of_mem _ hb)]

/-- Claim C8: `get_viewers` returns exactly the presence rows that match the
entity reference, whose `last_seen` is within the 2-minute freshness window,
and whose user is not the caller; in particular no returned viewer is older
than the window, even if the stale row still physically exists. -/
theorem get_viewers_fresh_matching_noncaller
    (auth : Nat) (s : List PresenceRow) (etype : String) (eid : Nat) (now : Int) :
    (∀ v ∈ get_viewers auth s etype eid now,
      now - 120 < v.last_seen ∧
      ∃ r ∈ s, r.entity_type = some etype ∧ r.entity_id = some eid ∧
        r.user_id ≠ auth ∧ now - 120 < r.last_seen ∧
        v = ⟨r.user_id, r.user_name, r.status, r.last_seen⟩) ∧
    (∀ r ∈ s, r.entity_type = some etype → r.entity_id = some eid →
      now - 120 < r.last_seen → r.user_id ≠ auth →
      (⟨r.user_id, r.user_name, r.status, r.last_seen⟩ : Viewer) ∈
        get_viewers auth s etype eid now) := by
  constructor
  · intro v hv
    simp only [get_viewers, List.mem_map, List.mem_filter] at hv
    obtain ⟨r, ⟨hrs, hmatch⟩, rfl⟩ := hv
    simp only [viewerMatch, Bool.and_eq_true, beq_iff_eq, Bool.not_eq_true',
      beq_eq_false_iff_ne, decide_eq_true_eq] at hmatch
    obtain ⟨⟨⟨het, hei⟩, hfresh⟩, hne⟩ := hmatch
    exact ⟨hfresh, r, hrs, het, hei, hne, hfresh, rfl⟩
  · intro r hrs het hei hfresh hne
    simp only [get_viewers, List.mem_map]
    refine ⟨r, List.mem_filter.mpr ⟨hrs, ?_⟩, rfl⟩
    simp [viewerMatch, het, hei, hfresh, hne]

/-- Witness for C8 at a concrete presence store: the fresh other-user viewer
of the entity is returned; its membership certifies the characterization, and
the stale row of user 8 (121 seconds old at `now = 200`) satisfies the
freshness bound vacuously by not being returned. -/
theorem get_viewers_fresh_matching_noncaller_witness :
    ((⟨4, "Bob", "online", 150⟩ : Viewer) ∈
      get_viewers 3
        [⟨4, "Bob", "/jobs/5", some "job", some 5, "online", 150⟩,
         ⟨8, "Eve", "/jobs/5", some "job", some 5, "online", 79⟩]
        "job" 5 200) ∧
    (∀ v ∈ get_viewers 3
        [⟨4, "Bob", "/jobs/5", some "job", some 5, "online", 150⟩,
         ⟨8, "Eve", "/jobs/5", some "job", some 5, "online", 79⟩]
        "job" 5 200,
      (200 : Int) - 120 < v.last_seen) :=
  ⟨(get_viewers_fresh_matching_noncaller 3
      [⟨4, "Bob", "/jobs/5", some "job", some 5, "online", 150⟩,
       ⟨8, "Eve", "/jobs/5", some "job", some 5, "online", 79⟩]
      "job" 5 200).2
      ⟨4, "Bob", "/jobs/5", some "job", some 5, "online", 150⟩
      (by decide) rfl rfl (by decide) (by decide),
   fun v hv =>
    ((get_viewers_fresh_matching_noncaller 3
      [⟨4, "Bob", "/jobs/5", some "job", some 5, "online", 150⟩,
       ⟨8, "Eve", "/jobs/5", some "job", some 5, "online", 79⟩]
      "job" 5 200).1 v hv).1⟩

/-- `lockMatches` pins down the identity key. -/
theorem identKey_eq_of_lockMatches {etype : String} {eid : Nat} {q : LockRow}
    (h : lockMatches etype eid q = true) : identKey q = (etype, eid) := by
  simp only [lockMatches, Bool.and_eq_true, beq_iff_eq] at h
  simp [identKey, h.1, h.2]

/-- A map that keeps every identity key preserves `wfIdent`. -/
theorem wfIdent_map_of_inv {s : List LockRow} {g : LockRow → LockRow}
    (h : ∀ a, identKey (g a) = identKey a) (hwf : wfIdent s) :
    wfIdent (s.map g) := by
  unfold wfIdent
  rw [map_key_map_inv g identKey h]
  exact hwf

/-- Any filtering preserves `wfIdent`. -/
theorem wfIdent_filter {s : List LockRow} (p : LockRow → Bool)
    (hwf : wfIdent s) : wfIdent (s.filter p) := by
  exact List.Nodup.sublist (List.Sublist.map identKey (List.filter_sublist s)) hwf

/-- Claim C3: in a lock store satisfying the schema's uniqueness constraint,
every identity has at most one lock row (hence at most one non-expired lock
at any instant); `acquire_lock`, `release_lock` and `cleanup_expired_locks`
all preserve the constraint; and at any instant at most one principal can
observe `is_mine = true` from `check_lock` on a given identity. -/
theorem lock_store_unique_identity_invariants
    (s : List LockRow) (hwf : wfIdent s) :
    (∀ etype eid, ∀ q1 ∈ s, ∀ q2 ∈ s,
      lockMatches etype eid q1 = true → lockMatches etype eid q2 = true →
      q1 = q2) ∧
    (∀ auth pn etype eid dur now fid,
      wfIdent (acquire_lock auth pn s etype eid dur now fid).2) ∧
    (∀ auth etype eid, wfIdent (release_lock auth s etype eid).2) ∧
    (∀ now, wfIdent (cleanup_expired_locks s now).2) ∧
    (∀ etype eid now u1 u2,
      (check_lock (some u1) s etype eid now).isMine = true →
      (check_lock (some u2) s etype eid now).isMine = true → u1 = u2) := by
  refine ⟨?_, ?_, ?_, ?_, ?_⟩
  · intro etype eid q1 h1 q2 h2 hm1 hm2
    exact List.inj_on_of_nodup_map hwf h1 h2
      (by rw [identKey_eq_of_lockMatches hm1, identKey_eq_of_lockMatches hm2])
  · intro auth pn etype eid dur now fid
    cases auth with
    | none => simpa [acquire_lock] using hwf
    | some uid =>
      cases hfind : lookupLock s etype eid with
      | some r =>
        by_cases hb : (r.locked_by == uid) = true
        · have hst : (acquire_lock (some uid) pn s etype eid dur now fid).2 =
              s.map fun q =>
                if q.id == r.id then
                  { q with expires_at := now + minutes dur, locked_at := now }
                else q := by
            simp [acquire_lock, hfind, hb]
          rw [hst]
          refine wfIdent_map_of_inv ?_ hwf
          intro a
          by_cases h : (a.id == r.id) = true <;> simp [identKey, h]
        · by_cases he : r.expires_at < now
          · have hst : (acquire_lock (some uid) pn s etype eid dur now fid).2 =
                s.map fun q =>
                  if q.id == r.id then
                    { q with locked_by := uid, locked_by_name := pn uid,
                             locked_at := now, expires_at := now + minutes dur }
                  else q := by
              simp [acquire_lock, hfind, hb, he]
            rw [hst]
            refine wfIdent_map_of_inv ?_ hwf
            intro a
            by_cases h : (a.id == r.id) = true <;> simp [identKey, h]
          · have hst : (acquire_lock (some uid) pn s etype eid dur now fid).2 = s := by
              simp [acquire_lock, hfind, hb, he]
            rw [hst]
            exact hwf
      | none =>
        have hst : (acquire_lock (some uid) pn s etype eid dur now fid).2 =
            s ++ [⟨fid, etype, eid, uid, pn uid, now, now + minutes dur⟩] := by
          simp [acquire_lock, hfind]
        rw [hst]
        unfold wfIdent
        rw [List.map_append, List.nodup_append]
        refine ⟨hwf, by simp, ?_⟩
        intro a ha hb
        simp only [List.map_cons, List.map_nil, List.mem_singleton] at hb
        subst hb
        obtain ⟨q, hqs, hkey⟩ := List.mem_map.mp ha
        simp only [lookupLock] at hfind
        have hnm := List.find?_eq_none.mp hfind q hqs
        apply hnm
        simp only [identKey, Prod.mk.injEq] at hkey
        simp [lockMatches, hkey.1, hkey.2]
  · intro auth etype eid
    cases auth with
    | none => simpa [release_lock] using hwf
    | some uid => exact wfIdent_filter _ hwf
  · intro now
    exact wfIdent_filter _ hwf
  · intro etype eid now u1 u2 h1 h2
    cases hf : s.find?
        (fun r => lockMatches etype eid r && decide (now < r.expires_at)) with
    | none =>
      rw [check_lock, hf] at h1
      simp [CheckResult.isMine] at h1
    | some r =>
      rw [check_lock, hf] at h1
      rw [check_lock, hf] at h2
      simp only [CheckResult.isMine, beq_iff_eq, Option.some.injEq] at h1 h2
      rw [h1, h2]

/-- Witness for C3 on a concrete two-row store: the uniqueness constraint is
preserved by a takeover acquire, by a release, and by a cleanup sweep. -/
theorem lock_store_unique_identity_invariants_witness :
    wfIdent ((acquire_lock (some 4) (fun _ => "Bob")
      [⟨1, "job", 5, 3, "Ann", 0, 50⟩, ⟨2, "company", 5, 4, "Bob", 0, 900⟩]
      "job" 5 15 100 9).2) ∧
    wfIdent ((release_lock (some 3)
      [⟨1, "job", 5, 3, "Ann", 0, 50⟩, ⟨2, "company", 5, 4, "Bob", 0, 900⟩]
      "job" 5).2) ∧
    wfIdent ((cleanup_expired_locks
      [⟨1, "job", 5, 3, "Ann", 0, 50⟩, ⟨2, "company", 5, 4, "Bob", 0, 900⟩]
      100).2) :=
  ⟨(lock_store_unique_identity_invariants
      [⟨1, "job", 5, 3, "Ann", 0, 50⟩, ⟨2, "company", 5, 4, "Bob", 0, 900⟩]
      (by unfold wfIdent; decide)).2.1 (some 4) (fun _ => "Bob") "job" 5 15 100 9,
   (lock_store_unique_identity_invariants
      [⟨1, "job", 5, 3, "Ann", 0, 50⟩, ⟨2, "company", 5, 4, "Bob", 0, 900⟩]
      (by unfold wfIdent; decide)).2.2.1 (some 3) "job" 5,
   (lock_store_unique_identity_invariants
      [⟨1, "job", 5, 3, "Ann", 0, 50⟩, ⟨2, "company", 5, 4, "Bob", 0, 900⟩]
      (by unfold wfIdent; decide)).2.2.2.1 100⟩

/-- Claim C5: a versioned update through `updateWithVersionCheck` against a
row whose stored version equals `expectedVersion` succeeds and stores exactly
version `expectedVersion + 1` (whatever fields the payload changed), leaving
unrelated rows untouched; a stale `expectedVersion` is rejected with the
conflict error and the table - including the stored version - is unchanged.
Hence over any sequence of successful updates the stored version strictly
increases by 1 each time. -/
theorem versioned_update_semantics
    (db : List EntityRow) (entityId : Nat) (upd : String → String)
    (expected : Int) (r : EntityRow)
    (hwf : (db.map EntityRow.id).Nodup)
    (hr : r ∈ db) (hid : r.id = entityId) :
    (r.version = some expected →
      (updateWithVersionCheck db entityId upd expected).1 =
        .ok { r with data := upd r.data, version := some (expected + 1) } ∧
      findEntity (updateWithVersionCheck db entityId upd expected).2 entityId =
        some { r with data := upd r.data, version := some (expected + 1) } ∧
      ∀ q ∈ db, q.id ≠ entityId →
        q ∈ (updateWithVersionCheck db entityId upd expected).2) ∧
    (r.version ≠ some expected →
      updateWithVersionCheck db entityId upd expected =
        (.error "This record has been modified by another user. Please refresh and try again.",
         db)) := by
  have hdbnodup : db.Nodup := List.Nodup.of_map _ hwf
  have huniqid : ∀ q ∈ db, q.id = entityId → q = r := by
    intro q hq hqid
    exact List.inj_on_of_nodup_map hwf hq hr (by rw [hqid, hid])
  constructor
  · intro hv
    have hpr : versionedMatch entityId expected r = true := by
      simp [versionedMatch, hid, hv]
    have huniq : ∀ q ∈ db, versionedMatch entityId expected q = true → q = r := by
      intro q hq hmq
      simp only [versionedMatch, Bool.and_eq_true, beq_iff_eq] at hmq
      exact huniqid q hq hmq.1
    have haff : db.filter (versionedMatch entityId expected) = [r] :=
      filter_eq_singleton hdbnodup hr hpr huniq
    have happly : applyVersionedUpdate upd r =
        { r with data := upd r.data, version := some (expected + 1) } := by
      simp [applyVersionedUpdate, increment_version, hv]
    refine ⟨?_, ?_, ?_⟩
    · simp [updateWithVersionCheck, haff, happly]
    · have hfind_db : findEntity db entityId = some r := by
        cases hf : findEntity db entityId with
        | none =>
          simp only [findEntity] at hf
          have := List.find?_eq_none.mp hf r hr
          simp [hid] at this
        | some q =>
          simp only [findEntity] at hf
          have hq1 : q ∈ db := List.mem_of_find?_eq_some hf
          have hq2 := List.find?_some hf
          simp only [beq_iff_eq] at hq2
          rw [huniqid q hq1 hq2]
      have h2 : (updateWithVersionCheck db entityId upd expected).2 =
          db.map fun q =>
            if versionedMatch entityId expected q then applyVersionedUpdate upd q
            else q := by
        simp [updateWithVersionCheck, haff]
      rw [h2]
      unfold findEntity
      rw [find?_map_pred_inv]
      · simp only [findEntity] at hfind_db
        rw [hfind_db, Option.map_some', hpr, if_pos rfl, happly]
      · intro a
        by_cases h : versionedMatch entityId expected a = true <;>
          simp [h, applyVersionedUpdate]
    · intro q hq hne
      have hmq : versionedMatch entityId expected q = false := by
        simp [versionedMatch, beq_eq_false_iff_ne.mpr hne]
      have h2 : (updateWithVersionCheck db entityId upd expected).2 =
          db.map fun q =>
            if versionedMatch entityId expected q then applyVersionedUpdate upd q
            else q := by
        simp [updateWithVersionCheck, haff]
      rw [h2]
      exact List.mem_map.mpr ⟨q, hq, by simp [hmq]⟩
  · intro hv
    have hnone : ∀ q ∈ db, versionedMatch entityId expected q = false := by
      intro q hq
      by_cases hqid : q.id = entityId
      · have hqr : q = r := huniqid q hq hqid
        subst hqr
        simp [versionedMatch, beq_eq_false_iff_ne.mpr hv]
      · simp [versionedMatch, beq_eq_false_iff_ne.mpr hqid]
    have haff : db.filter (versionedMatch entityId expected) = [] :=
      List.filter_eq_nil_iff.mpr fun a ha => by simp [hnone a ha]
    have hmap : (db.map fun q =>
        if versionedMatch entityId expected q then applyVersionedUpdate upd q
        else q) = db :=
      map_id_of_mem fun a ha => by simp [hnone a ha]
    simp [updateWithVersionCheck, haff, hmap]

/-- Witness for C5 on a concrete table: an update with the matching expected
version 3 succeeds and stores version 4; an update with stale expected
version 2 is rejected and leaves the table unchanged. -/
theorem versioned_update_semantics_witness :
    ((updateWithVersionCheck [⟨7, some 3, "old"⟩] 7 (fun _ => "edited") 3).1 =
      .ok ⟨7, some 4, "edited"⟩) ∧
    (updateWithVersionCheck [⟨7, some 3, "old"⟩] 7 (fun _ => "edited") 2 =
      (.error "This record has been modified by another user. Please refresh and try again.",
       [⟨7, some 3, "old"⟩])) :=
  ⟨((versioned_update_semantics [⟨7, some 3, "old"⟩] 7 (fun _ => "edited") 3
      ⟨7, some 3, "old"⟩ (by decide) (by decide) rfl).1 rfl).1,
   (versioned_update_semantics [⟨7, some 3, "old"⟩] 7 (fun _ => "edited") 2
      ⟨7, some 3, "old"⟩ (by decide) (by decide) rfl).2 (by decide)⟩
